import Mathlib

/-!
# PiBlock — shallow embedding of the DNS blocklist core

This file embeds the Go sources of the PiBlock repository (blocklist.go,
userfilter.go, the DNS front-end `StartDNSServer`, and the runtime `Config`)
as executable Lean definitions and proves/refutes the frozen specification
claims about them.

Strings are modelled as `List Char` (`Str`); the Go string functions used by
the source (`strings.TrimSpace`, `strings.ToLower`, `strings.TrimSuffix`,
`strings.Fields`, `strings.FieldsFunc`, `strings.Index`) are modelled on the
ASCII fragment that DNS names and blocklist files use; `strings.ToLower` is
modelled as ASCII lowercasing.
-/

namespace PiBlock

abbrev Str := List Char

/-- Whitespace as recognised by `unicode.IsSpace` on ASCII input
(space, tab, newline, carriage return, vertical tab, form feed). -/
def isSpaceChar (c : Char) : Bool :=
  c = ' ' || c = '\t' || c = '\n' || c = '\r' || c = Char.ofNat 11 || c = Char.ofNat 12

/-- `strings.TrimSpace`: drop leading and trailing whitespace. -/
def trimSpace (s : Str) : Str :=
  ((s.dropWhile isSpaceChar).reverse.dropWhile isSpaceChar).reverse

/-- ASCII lowercasing of one character (models `strings.ToLower` on ASCII). -/
def toLowerChar (c : Char) : Char :=
  if 'A' ≤ c ∧ c ≤ 'Z' then Char.ofNat (c.toNat + 32) else c

/-- `strings.ToLower` on ASCII input. -/
def toLower (s : Str) : Str := s.map toLowerChar

/-- `strings.TrimSuffix(s, ".")`: remove one trailing dot when present. -/
def trimSuffixDot (s : Str) : Str :=
  if s.getLast? = some '.' then s.dropLast else s

/-- `strings.HasPrefix(s, "#")`. -/
def hasHashPrefix (s : Str) : Bool :=
  match s with
  | [] => false
  | c :: _ => c = '#'

/-- `normalizePattern` from blocklist.go: trim space, strip one trailing dot,
lowercase; empty results and comment lines map to the empty string. -/
def normalizePattern (p : Str) : Str :=
  let p1 := toLower (trimSuffixDot (trimSpace p))
  if p1.isEmpty || hasHashPrefix p1 then [] else p1

/-- Domain normalization used by `IsBlocked` and `IsBlockedForUser`:
`strings.TrimSuffix(strings.ToLower(strings.TrimSpace(domain)), ".")`. -/
def normalizeDomain (d : Str) : Str :=
  trimSuffixDot (toLower (trimSpace d))

/-!
## Wildcard matching

`patternToRegexp` compiles a pattern by `regexp.QuoteMeta`-escaping it,
replacing the escaped `*` by `.*`, and anchoring with `^...$`.  The language
of the resulting regular expression is exactly: the pattern matched against
the whole string, where `*` matches any sequence of characters (including
dots) and every other character matches itself literally.  `wildMatch` is
that denotation, written with explicit fuel so that it is structurally
recursive (the fuel `p.length + s.length + 1` always suffices: every
recursive call shrinks `p.length + s.length`).
-/

def wildMatchF : Nat → Str → Str → Bool
  | 0, _, _ => false
  | fuel + 1, p, s =>
    match p, s with
    | [], s2 => s2.isEmpty
    | '*' :: ps, s2 =>
      wildMatchF fuel ps s2 ||
        (match s2 with
         | [] => false
         | _ :: s3 => wildMatchF fuel ('*' :: ps) s3)
    | c :: ps, [] => false && (c :: ps).isEmpty
    | c :: ps, d :: ds => c = d && wildMatchF fuel ps ds

/-- Whole-string wildcard match: the denotation of the anchored regexp
produced by `patternToRegexp`. -/
def wildMatch (p s : Str) : Bool :=
  wildMatchF (p.length + s.length + 1) p s

/-- `patternToRegexp` from blocklist.go.  The compiled `*regexp.Regexp` is
represented by its source pattern (post-normalization); `none` models the
`nil, nil` return for patterns that normalize to the empty string.
`MatchString` of the represented regexp is `wildMatch`. -/
def patternToRegexp (p : Str) : Option Str :=
  let n := normalizePattern p
  if n.isEmpty then none else some n

/-- `IsBlocked` from blocklist.go, as a function of the compiled pattern
list: normalize the domain, return true iff some compiled regexp matches. -/
def IsBlocked (compiled : List Str) (domain : Str) : Bool :=
  let d := normalizeDomain domain
  compiled.any (fun re => wildMatch re d)

/-!
## Line parsing (`readLines`) and its filters
-/

/-- Cut a line at the first `#` (`strings.Index(line, "#")` then slice). -/
def stripInlineComment (line : Str) : Str :=
  line.takeWhile (fun c => c ≠ '#')

/-- `strings.Fields` / `strings.FieldsFunc`: maximal runs of
non-separator characters, in order; empty fields are dropped. -/
def fieldsBy (p : Char → Bool) (s : Str) : List Str :=
  let r := s.foldl
    (fun (acc : List Str × Str) c =>
      if p c then
        if acc.2.isEmpty then (acc.1, []) else (acc.1 ++ [acc.2.reverse], [])
      else (acc.1, c :: acc.2))
    ([], [])
  if r.2.isEmpty then r.1 else r.1 ++ [r.2.reverse]

/-- Split on a separator character, keeping empty fields. -/
def splitSep (sep : Char) (s : Str) : List Str :=
  s.foldr
    (fun c acc =>
      if c = sep then [] :: acc
      else
        match acc with
        | [] => [[c]]
        | a :: rest => (c :: a) :: rest)
    [[]]

def isDigitChar (c : Char) : Bool := '0' ≤ c && c ≤ '9'

def isHexDigitChar (c : Char) : Bool :=
  isDigitChar c || ('a' ≤ c && c ≤ 'f') || ('A' ≤ c && c ≤ 'F')

def strToNat (s : Str) : Nat :=
  s.foldl (fun n c => n * 10 + (c.toNat - 48)) 0

/-- One IPv4 dotted-quad octet as accepted by `net.ParseIP`: 1–3 decimal
digits, value ≤ 255, no leading zero. -/
def isV4Octet (s : Str) : Bool :=
  decide (0 < s.length) && decide (s.length ≤ 3) && s.all isDigitChar &&
    (decide (s.length = 1) || decide (s.head? ≠ some '0')) && decide (strToNat s ≤ 255)

def isIPv4 (s : Str) : Bool :=
  let parts := splitSep '.' s
  decide (parts.length = 4) && parts.all isV4Octet

def isV6Group (s : Str) : Bool :=
  decide (0 < s.length) && decide (s.length ≤ 4) && s.all isHexDigitChar

def hasDoubleColon : Str → Bool
  | a :: b :: rest => (a = ':' && b = ':') || hasDoubleColon (b :: rest)
  | _ => false

/-- IPv6 textual form as accepted by `net.ParseIP`: hex groups of 1–4
digits separated by `:`, at most one `::` ellipsis, an optional embedded
IPv4 address in the last position (counting as two groups), and a total
of exactly 8 groups (fewer than 8 when the ellipsis is present). -/
def isIPv6 (s : Str) : Bool :=
  let gs := splitSep ':' s
  -- collapse the double empty field produced by a leading or trailing "::"
  let gs1 : List Str :=
    match gs with
    | [] :: [] :: rest => [] :: rest
    | g => g
  let gs2 : List Str :=
    match gs1.reverse with
    | [] :: [] :: rest => ([] :: rest).reverse
    | _ => gs1
  let empties : Nat := (gs2.filter (fun g => g.isEmpty)).length
  let nonempty : List Str := gs2.filter (fun g => ¬g.isEmpty)
  let hasEllipsis := decide (empties = 1) && hasDoubleColon s
  let groupsOk :=
    match nonempty.reverse with
    | [] => true
    | lastF :: front => (isV6Group lastF || isIPv4 lastF) && front.all isV6Group
  let size : Nat :=
    match nonempty.reverse with
    | [] => 0
    | lastF :: front => front.length + (if isIPv4 lastF then 2 else 1)
  decide (empties ≤ 1) && (decide (empties = 0) || hasEllipsis) && groupsOk &&
    (if hasEllipsis then decide (size ≤ 7) else decide (size = 8))

/-- `isIPString` from blocklist.go: `net.ParseIP(s) != nil`. -/
def isIPString (s : Str) : Bool :=
  isIPv4 s || isIPv6 s

def strHasPrefix (pre s : Str) : Bool := s.take pre.length = pre

def strHasSuffix (suf s : Str) : Bool := s.reverse.take suf.length = suf.reverse

/-- `isLocalHostName` from blocklist.go. -/
def isLocalHostName (s : Str) : Bool :=
  s = "localhost".data || s = "local".data || s = "broadcasthost".data ||
    s = "ip6-localhost".data || s = "ip6-loopback".data ||
    strHasPrefix "ip6-".data s || strHasPrefix "ff".data s

/-- One iteration of the scanner loop in `readLines`: the domains
contributed by a single line of input. -/
def parseLine (line : Str) : List Str :=
  let l1 := trimSpace (stripInlineComment line)
  if l1.isEmpty then []
  else
    match fieldsBy isSpaceChar l1 with
    | [] => []
    | f0 :: rest =>
      let toks : List Str :=
        if isIPString f0 then (if rest.length < 1 then [] else rest)
        else f0 :: rest
      toks.filterMap (fun h =>
        let h1 := trimSpace h
        if h1.isEmpty then none
        else
          let n := normalizePattern h1
          if n.isEmpty || isLocalHostName n || isIPString n then none else some n)

/-- `readLines` from blocklist.go on file contents given as a list of
scanner lines. -/
def readLines (lines : List Str) : List Str :=
  lines.flatMap parseLine

/-!
## The list store (`BlocklistManager`)
-/

/-- One entry of the blocklist directory, as seen by `os.ReadDir`:
a file name and, for regular files, its contents as a list of lines. -/
structure DirEntry where
  name : Str
  isDir : Bool
  content : List Str

/-- Association-list update with Go map semantics (later assignment to the
same key overwrites). -/
def setAssoc {α : Type} (m : List (Str × α)) (k : Str) (v : α) : List (Str × α) :=
  match m with
  | [] => [(k, v)]
  | (k1, v1) :: rest => if k1 = k then (k, v) :: rest else (k1, v1) :: setAssoc rest k v

def lookupAssoc {α : Type} (m : List (Str × α)) (k : Str) : Option α :=
  match m with
  | [] => none
  | (k1, v1) :: rest => if k1 = k then some v1 else lookupAssoc rest k

/-- `strings.TrimSuffix(name, filepath.Ext(name))`: drop everything from
the last dot (inclusive) when the name contains a dot. -/
def trimExt (name : Str) : Str :=
  if name.contains '.' then ((name.reverse.dropWhile (fun c => c ≠ '.')).drop 1).reverse
  else name

/-- The `lists` map built by `LoadAll`: every non-directory entry whose
lowercased name ends in `.txt` is parsed with `readLines` and stored under
its base name. -/
def loadAllLists (dir : List DirEntry) : List (Str × List Str) :=
  dir.foldl
    (fun m e =>
      if e.isDir then m
      else if strHasSuffix ".txt".data (toLower e.name) then
        setAssoc m (trimExt e.name) (readLines e.content)
      else m)
    []

/-- The `compiled` slice built by `LoadAll`: every pattern of every list
that is non-empty after trimming and compiles to a non-`nil` regexp.  A
compiled regexp is represented by its normalized source pattern. -/
def compileLists (lists : List (Str × List Str)) : List Str :=
  lists.flatMap (fun nl =>
    nl.2.filterMap (fun p =>
      let p1 := trimSpace p
      if p1.isEmpty then none else patternToRegexp p1))

/-- A single DNS query record (`QueryEntry`); wall-clock time is not
modelled. -/
structure QueryEntry where
  domain : Str
  client : Str
  blocked : Bool
deriving DecidableEq

/-- The mutable state of a `BlocklistManager`.  Compiled regexps are
represented by their normalized source patterns; Go maps by association
lists; the durable `logs.jsonl` file by its list of entries. -/
structure BMState where
  lists : List (Str × List Str)
  compiled : List Str
  queries : Nat
  blockedQueries : Nat
  domainHits : List (Str × Nat)
  allHits : List (Str × Nat)
  clientHits : List (Str × Nat)
  recent : List QueryEntry
  recentCap : Nat
  logFile : List QueryEntry
deriving DecidableEq

/-- `LoadAll` from blocklist.go: rebuild `lists` and `compiled` from the
directory contents; all other fields are untouched. -/
def LoadAll (b : BMState) (dir : List DirEntry) : BMState :=
  let lists := loadAllLists dir
  { b with lists := lists, compiled := compileLists lists }

/-- `StatsSnapshot` returned by `GetStats`. -/
structure StatsSnapshot where
  queries : Nat
  blocked : Nat
  domainHits : List (Str × Nat)
  clientHits : List (Str × Nat)
deriving DecidableEq

/-- `GetStats` from blocklist.go. -/
def GetStats (b : BMState) : StatsSnapshot :=
  { queries := b.queries, blocked := b.blockedQueries,
    domainHits := b.domainHits, clientHits := b.clientHits }

/-- `DeleteLogs` from blocklist.go: truncate the persistent log file and
reset the in-memory recent ring. -/
def DeleteLogs (b : BMState) : BMState :=
  { b with logFile := [], recent := [] }

def bumpAssoc (m : List (Str × Nat)) (k : Str) : List (Str × Nat) :=
  match lookupAssoc m k with
  | some v => setAssoc m k (v + 1)
  | none => setAssoc m k 1

/-- `RecordQueryWithClient` from blocklist.go: bump the counters, push the
entry onto the bounded recent ring, and append it to the durable log (the
asynchronous `appendLog` goroutine is modelled as an immediate append). -/
def RecordQueryWithClient (b : BMState) (domain client : Str) (blocked : Bool) : BMState :=
  let b1 := { b with
    queries := b.queries + 1,
    blockedQueries := if blocked then b.blockedQueries + 1 else b.blockedQueries,
    domainHits := if blocked then bumpAssoc b.domainHits domain else b.domainHits,
    allHits := bumpAssoc b.allHits domain,
    clientHits := if client.isEmpty then b.clientHits else bumpAssoc b.clientHits client }
  let entry : QueryEntry := ⟨domain, client, blocked⟩
  let rec1 := b1.recent ++ [entry]
  let rec2 := if b1.recentCap < rec1.length then rec1.drop (rec1.length - b1.recentCap) else rec1
  { b1 with recent := rec2, logFile := b1.logFile ++ [entry] }

/-!
## List mutators (`AddItemsToList`, `AddFileToList`)

The blocklist directory is threaded explicitly.  Both mutators return the
operation's result together with the manager state and the directory after
the call; on every error path the state and the directory come back
unchanged, exactly as in the Go source where the early `return` happens
before any file write.
-/

inductive StoreErr where
  | missingParams
  | notFound
  | fetchFailed
  | badStatus
deriving DecidableEq

inductive FetchResult where
  | failed
  | response (status : Nat) (body : List Str)
deriving DecidableEq

/-- `os.Open` on `<dir>/<fname>`: the contents of the regular file with
that name, when present. -/
def findFile (dir : List DirEntry) (fname : Str) : Option (List Str) :=
  match dir.find? (fun e => ¬e.isDir && e.name = fname) with
  | some e => some e.content
  | none => none

/-- `os.Create` on `<dir>/<fname>`: truncate-and-write an existing file or
create a new one. -/
def setFile (dir : List DirEntry) (fname : Str) (content : List Str) : List DirEntry :=
  if dir.any (fun e => ¬e.isDir && e.name = fname) then
    dir.map (fun e => if ¬e.isDir && e.name = fname then ⟨e.name, e.isDir, content⟩ else e)
  else dir ++ [⟨fname, false, content⟩]

/-- One insertion into the deduplicating `set` used by the mutators
(`s := normalizePattern(l); if s != "" { set[s] = struct{}{} }`).  The Go
map is modelled as an insertion-ordered duplicate-free list; the file is
later written by enumerating the set, so only its membership matters. -/
def insertNorm (acc : List Str) (tok : Str) : List Str :=
  let s := normalizePattern tok
  if s.isEmpty then acc
  else if s ∈ acc then acc else acc ++ [s]

/-- The counting insertion used for the new entries
(`if s == "" continue; if _, ok := set[s]; !ok { set[s] = ...; added++ }`). -/
def insertNormCount (acc : List Str × Nat) (tok : Str) : List Str × Nat :=
  let s := normalizePattern tok
  if s.isEmpty then acc
  else if s ∈ acc.1 then acc else (acc.1 ++ [s], acc.2 + 1)

/-- `strings.FieldsFunc(it, r == ',' || ' ' || '\n' || '\r' || '\t')`. -/
def isItemSep (c : Char) : Bool :=
  c = ',' || c = ' ' || c = '\n' || c = '\r' || c = '\t'

def splitItem (it : Str) : List Str := fieldsBy isItemSep it

/-- `AddItemsToList` from blocklist.go. -/
def AddItemsToList (b : BMState) (dir : List DirEntry) (listName : Str)
    (items : List Str) (createIfMissing : Bool) :
    Except StoreErr Nat × BMState × List DirEntry :=
  if listName.isEmpty then (.error .missingParams, b, dir)
  else
    let fname := listName ++ ".txt".data
    let oldOpt := findFile dir fname
    if oldOpt.isNone && ¬createIfMissing then (.error .notFound, b, dir)
    else
      let oldLines := oldOpt.getD []
      let base := (readLines oldLines).foldl insertNorm []
      let res := items.foldl (fun acc it => (splitItem it).foldl insertNormCount acc) (base, 0)
      let dir1 := setFile dir fname res.1
      (.ok res.2, LoadAll b dir1, dir1)

/-- `AddFileToList` from blocklist.go.  The HTTP GET of `url` is an
external effect and enters the model as its observed outcome `fetch`;
its body is presented as the scanner lines `readLines` consumes. -/
def AddFileToList (b : BMState) (dir : List DirEntry) (listName url : Str)
    (fetch : FetchResult) (createIfMissing : Bool) :
    Except StoreErr Nat × BMState × List DirEntry :=
  if listName.isEmpty || url.isEmpty then (.error .missingParams, b, dir)
  else
    match fetch with
    | .failed => (.error .fetchFailed, b, dir)
    | .response status body =>
      if status < 200 || 300 ≤ status then (.error .badStatus, b, dir)
      else
        let newLines := readLines body
        let fname := listName ++ ".txt".data
        let oldOpt := findFile dir fname
        if oldOpt.isNone && ¬createIfMissing then (.error .notFound, b, dir)
        else
          let oldLines := oldOpt.getD []
          let base := (readLines oldLines).foldl insertNorm []
          let res := newLines.foldl insertNormCount (base, 0)
          let dir1 := setFile dir fname res.1
          (.ok res.2, LoadAll b dir1, dir1)

/-!
## The DNS front-end (`StartDNSServer` handler) and `IsBlockedForUser`
-/

/-- The runtime `Config` (part of the source outside blocklist.go). -/
structure Config where
  upstream : Str
  blockingMode : Str
  blockPageIP : Str
  blockPagePort : Nat
deriving DecidableEq

/-- The package-level `AppConfig` defaults. -/
def defaultConfig : Config :=
  { upstream := "1.1.1.1:53".data, blockingMode := "redirect".data,
    blockPageIP := [], blockPagePort := 9080 }

def typeA : Nat := 1
def typeANY : Nat := 255
def rcodeSuccess : Nat := 0
def rcodeServerFailure : Nat := 2
def rcodeNameError : Nat := 3

structure Question where
  qname : Str
  qtype : Nat
deriving DecidableEq

/-- A resource record in an answer section; only the fields the handler
produces are modelled, with the rdata IP kept as its textual form. -/
structure ARecord where
  name : Str
  rrtype : Nat
  ttl : Nat
  rdata : Str
deriving DecidableEq

structure DnsMsg where
  questions : List Question
  answers : List ARecord
  rcode : Nat
  authoritative : Bool
deriving DecidableEq

/-- `GetClientIP` from userfilter.go: `net.SplitHostPort` and, on error,
the address unchanged.  Modelled on the shapes `host:port`,
`[host]:port`, and colon-free strings. -/
def GetClientIP (addr : Str) : Str :=
  if ¬addr.contains ':' then addr
  else
    let host := ((addr.reverse.dropWhile (fun c => c ≠ ':')).drop 1).reverse
    match host with
    | '[' :: rest =>
      (match rest.reverse with
       | ']' :: inner => inner.reverse
       | _ => addr)
    | _ => if host.contains ':' then addr else host

/-- `IsBlockedForUser` from userfilter.go.  `getUserBlocklists` stands for
`AccountManager.GetUserBlocklists`; `none` is its error return. -/
def IsBlockedForUser (b : BMState) (domain mac : Str)
    (getUserBlocklists : Str → Option (List Str)) : Bool :=
  if mac.isEmpty then false
  else
    match getUserBlocklists mac with
    | none => false
    | some userLists =>
      if userLists.length = 0 then false
      else
        let d := normalizeDomain domain
        userLists.any (fun listName =>
          match lookupAssoc b.lists listName with
          | none => false
          | some patterns =>
            patterns.any (fun pattern =>
              if pattern.isEmpty then false
              else
                match patternToRegexp pattern with
                | none => false
                | some re => wildMatch re d))

/-- The environment the handler closure reads: the global config, the
`ipMACCache` contents, whether an `AccountManager` was supplied, its
blocklist lookup, and the successive outcomes of `dns.Client.Exchange`
(`none` = timeout or network error). -/
structure DnsEnv where
  config : Config
  ipToMAC : List (Str × Str)
  hasAccountManager : Bool
  getUserBlocklists : Str → Option (List Str)
  upstream : List (Option (List ARecord))

/-- Observable actions of one handler invocation, in program order. -/
inductive Event where
  | record (domain client : Str) (blocked : Bool)
  | send (msg : DnsMsg)
deriving DecidableEq

/-- `w.RemoteAddr()`; `nil` maps to the literal `"unknown"`. -/
def clientAddrOf (remoteAddr : Option Str) : Str :=
  match remoteAddr with
  | some a => a
  | none => "unknown".data

/-- The handler's per-question block decision: a cached MAC together with
a non-nil `AccountManager` routes to `IsBlockedForUser`, anything else to
the global `IsBlocked`. -/
def decideBlocked (env : DnsEnv) (b : BMState) (clientAddr name : Str) : Bool :=
  let clientIP := GetClientIP clientAddr
  let mac := (lookupAssoc env.ipToMAC clientIP).getD []
  if ¬mac.isEmpty && env.hasAccountManager then
    IsBlockedForUser b name mac env.getUserBlocklists
  else
    IsBlocked b.compiled name

/-- The reply mutation of the `switch AppConfig.BlockingMode` statement. -/
def blockReply (cfg : Config) (q : Question) (msg : DnsMsg) : DnsMsg :=
  if cfg.blockingMode = "redirect".data then
    let target := if cfg.blockPageIP.isEmpty then "127.0.0.1".data else cfg.blockPageIP
    if q.qtype = typeA || q.qtype = typeANY then
      { msg with answers := msg.answers ++ [⟨q.qname, typeA, 60, target⟩] }
    else msg
  else if cfg.blockingMode = "nx".data then
    { msg with rcode := rcodeNameError }
  else
    if q.qtype = typeA || q.qtype = typeANY then
      { msg with answers := msg.answers ++ [⟨q.qname, typeA, 0, "0.0.0.0".data⟩] }
    else msg

/-- The `for _, q := range r.Question` loop of the handler.  `k` counts
the upstream exchanges performed so far and indexes `env.upstream`. -/
def processQuestions (env : DnsEnv) (b : BMState) (clientAddr : Str) :
    List Question → DnsMsg → Nat → List Event
  | [], msg, _ => [Event.send msg]
  | q :: rest, msg, k =>
    let name := trimSuffixDot q.qname
    if decideBlocked env b clientAddr name then
      [Event.record name clientAddr true, Event.send (blockReply env.config q msg)]
    else
      let msg1 :=
        match env.upstream.get? k with
        | some (some ans) => { msg with answers := msg.answers ++ ans }
        | _ => msg
      Event.record name clientAddr false :: processQuestions env b clientAddr rest msg1 (k + 1)

/-- One invocation of the `dns.HandleFunc` closure of `StartDNSServer`
(the per-device variant): `msg.SetReply(r)` plus `msg.Authoritative =
true`, then the question loop. -/
def handleMsg (env : DnsEnv) (b : BMState) (remoteAddr : Option Str) (r : DnsMsg) : List Event :=
  let msg0 : DnsMsg :=
    { questions := r.questions, answers := [], rcode := rcodeSuccess, authoritative := true }
  processQuestions env b (clientAddrOf remoteAddr) r.questions msg0 0

def isSendEvent : Event → Bool
  | Event.send _ => true
  | _ => false

def isRecordEvent : Event → Bool
  | Event.record .. => true
  | _ => false

/-- The replies written by `w.WriteMsg`, in order. -/
def sentReplies (evs : List Event) : List DnsMsg :=
  evs.filterMap (fun e => match e with | Event.send m => some m | _ => none)

/-!
## Normalization fixed points
-/

theorem length_dropWhile_le (p : Char → Bool) :
    ∀ s : Str, (s.dropWhile p).length ≤ s.length
  | [] => by simp
  | c :: cs => by
    by_cases hp : p c
    · have := length_dropWhile_le p cs
      simp only [List.dropWhile_cons, hp, if_true, List.length_cons]
      omega
    · simp [List.dropWhile_cons, hp]

theorem dropWhile_eq_self_of_length {p : Char → Bool} {s : Str}
    (h : (s.dropWhile p).length = s.length) : s.dropWhile p = s := by
  cases s with
  | nil => simp
  | cons c cs =>
    by_cases hp : p c
    · exfalso
      have hle : (cs.dropWhile p).length ≤ cs.length := length_dropWhile_le p cs
      simp [List.dropWhile_cons, hp] at h
      omega
    · simp [List.dropWhile_cons, hp]

theorem trimSpace_length_le (s : Str) : (trimSpace s).length ≤ s.length := by
  unfold trimSpace
  have h1 : (s.dropWhile isSpaceChar).length ≤ s.length := length_dropWhile_le _ s
  have h2 := length_dropWhile_le isSpaceChar ((s.dropWhile isSpaceChar).reverse)
  simp at h2 ⊢
  omega

theorem trimSpace_eq_self_of_length {s : Str}
    (h : (trimSpace s).length = s.length) : trimSpace s = s := by
  have h1 : (s.dropWhile isSpaceChar).length ≤ s.length := length_dropWhile_le _ s
  have h2 := length_dropWhile_le isSpaceChar ((s.dropWhile isSpaceChar).reverse)
  unfold trimSpace at h ⊢
  simp at h h2
  have e1 : (s.dropWhile isSpaceChar).length = s.length := by omega
  have e2 : (((s.dropWhile isSpaceChar).reverse).dropWhile isSpaceChar).length
      = ((s.dropWhile isSpaceChar).reverse).length := by simp; omega
  rw [dropWhile_eq_self_of_length e2, List.reverse_reverse,
    dropWhile_eq_self_of_length e1]

theorem trimSuffixDot_length_le (s : Str) : (trimSuffixDot s).length ≤ s.length := by
  unfold trimSuffixDot
  split
  · simp [List.length_dropLast]
  · exact le_refl _

theorem trimSuffixDot_eq_self_of_length {s : Str}
    (h : (trimSuffixDot s).length = s.length) : trimSuffixDot s = s := by
  unfold trimSuffixDot at h ⊢
  split at h
  · rename_i hlast
    exfalso
    have hne : s ≠ [] := by
      intro he
      rw [he] at hlast
      simp at hlast
    have : 0 < s.length := List.length_pos.mpr hne
    simp [List.length_dropLast] at h
    omega
  · rename_i hlast
    rw [if_neg hlast]

theorem toLower_length (s : Str) : (toLower s).length = s.length := by
  simp [toLower]

/-- A non-empty fixed point of `normalizePattern` is untouched by each of
its stages and compiles to itself. -/
theorem normalizePattern_fix {r : Str} (h : normalizePattern r = r) (hne : r ≠ []) :
    trimSpace r = r ∧ trimSuffixDot r = r ∧ toLower r = r ∧ patternToRegexp r = some r := by
  have h0 := h
  simp only [normalizePattern] at h
  split at h
  · exact absurd h.symm hne
  · have hlen : (toLower (trimSuffixDot (trimSpace r))).length = r.length := by rw [h]
    rw [toLower_length] at hlen
    have l1 : (trimSpace r).length ≤ r.length := trimSpace_length_le r
    have l2 : (trimSuffixDot (trimSpace r)).length ≤ (trimSpace r).length :=
      trimSuffixDot_length_le _
    have e1 : trimSpace r = r := trimSpace_eq_self_of_length (by omega)
    rw [e1] at h hlen
    have e2 : trimSuffixDot r = r := trimSuffixDot_eq_self_of_length (by omega)
    rw [e2] at h
    refine ⟨e1, e2, h, ?_⟩
    unfold patternToRegexp
    rw [h0]
    simp [hne]

/-!
## Claim C1 — `IsBlocked` wildcard semantics
-/

theorem mem_compileLists {lists : List (Str × List Str)} {re : Str} :
    re ∈ compileLists lists ↔
      ∃ nl ∈ lists, ∃ p ∈ nl.2,
        ¬(trimSpace p).isEmpty ∧ patternToRegexp (trimSpace p) = some re := by
  unfold compileLists
  simp only [List.mem_flatMap, List.mem_filterMap]
  constructor
  · rintro ⟨nl, hnl, p, hp, hsome⟩
    by_cases hemp : (trimSpace p).isEmpty
    · simp [hemp] at hsome
    · simp only [hemp, Bool.false_eq_true, if_false] at hsome
      exact ⟨nl, hnl, p, hp, by simp [hemp], hsome⟩
  · rintro ⟨nl, hnl, p, hp, hemp, hre⟩
    refine ⟨nl, hnl, p, hp, ?_⟩
    simp only [Bool.not_eq_true] at hemp
    simp [hemp, hre]

/-- C1: over any rule set whose rules are normalized (the data-model Rule
invariant: fixed under `normalizePattern` and non-empty), `IsBlocked`
returns true iff at least one rule, read as a whole-string wildcard
pattern in which `*` matches any character sequence (dots included) and
every other character matches literally, matches the queried domain after
normalization (trimmed, lowercased, one trailing dot stripped); in
particular `*.example.com` matches `a.example.com` and `a.b.example.com`
but not the apex `example.com`. -/
theorem isBlocked_iff_wildcard_rule
    (lists : List (Str × List Str)) (domain : Str)
    (hval : ∀ nl ∈ lists, ∀ r ∈ nl.2, normalizePattern r = r ∧ r ≠ []) :
    (IsBlocked (compileLists lists) domain = true ↔
      ∃ nl ∈ lists, ∃ r ∈ nl.2, wildMatch r (normalizeDomain domain) = true) ∧
    IsBlocked (compileLists [("ads".data, ["*.example.com".data])]) "a.example.com".data
      = true ∧
    IsBlocked (compileLists [("ads".data, ["*.example.com".data])]) "a.b.example.com".data
      = true ∧
    IsBlocked (compileLists [("ads".data, ["*.example.com".data])]) "example.com".data
      = false := by
  refine ⟨?_, by decide, by decide, by decide⟩
  simp only [IsBlocked, List.any_eq_true]
  constructor
  · rintro ⟨re, hre, hm⟩
    rcases mem_compileLists.mp hre with ⟨nl, hnl, p, hp, hemp, hcomp⟩
    obtain ⟨hfix, hne⟩ := hval nl hnl p hp
    obtain ⟨e1, _, _, hpr⟩ := normalizePattern_fix hfix hne
    rw [e1, hpr, Option.some_inj] at hcomp
    exact ⟨nl, hnl, p, hp, hcomp ▸ hm⟩
  · rintro ⟨nl, hnl, r, hr, hm⟩
    obtain ⟨hfix, hne⟩ := hval nl hnl r hr
    obtain ⟨e1, _, _, hpr⟩ := normalizePattern_fix hfix hne
    refine ⟨r, mem_compileLists.mpr ⟨nl, hnl, r, hr, ?_, ?_⟩, hm⟩
    · rw [e1]
      simpa using hne
    · rw [e1, hpr]

/-- C1 witness: the theorem applied to the one-list rule set
`{*.example.com}` and the domain `a.example.com`. -/
theorem isBlocked_iff_wildcard_rule_witness :
    IsBlocked (compileLists [("ads".data, ["*.example.com".data])]) "a.example.com".data
      = true :=
  (isBlocked_iff_wildcard_rule [("ads".data, ["*.example.com".data])]
    "a.example.com".data (by decide)).2.1

/-!
## Claims C6 and C10 — reload idempotence and the `DeleteLogs` frame
-/

/-- C6: `LoadAll` rebuilds `lists` and `compiled` purely from the
directory contents, so a second call on the same directory state yields a
snapshot with identical per-list rule sets (indeed an identical manager
state) and the same `IsBlocked` verdict for every domain. -/
theorem loadAll_idempotent (b : BMState) (dir : List DirEntry) :
    LoadAll (LoadAll b dir) dir = LoadAll b dir ∧
    (LoadAll (LoadAll b dir) dir).lists = (LoadAll b dir).lists ∧
    ∀ domain : Str,
      IsBlocked (LoadAll (LoadAll b dir) dir).compiled domain
        = IsBlocked (LoadAll b dir).compiled domain :=
  ⟨rfl, rfl, fun _ => rfl⟩

/-- C10: `DeleteLogs` empties only the recent-query ring and the durable
log file; the analytics counters and the loaded rule lists are untouched,
so a `GetStats` snapshot is identical before and after the call. -/
theorem deleteLogs_frame (b : BMState) :
    GetStats (DeleteLogs b) = GetStats b ∧
    (DeleteLogs b).lists = b.lists ∧
    (DeleteLogs b).compiled = b.compiled ∧
    (DeleteLogs b).queries = b.queries ∧
    (DeleteLogs b).blockedQueries = b.blockedQueries ∧
    (DeleteLogs b).domainHits = b.domainHits ∧
    (DeleteLogs b).allHits = b.allHits ∧
    (DeleteLogs b).clientHits = b.clientHits ∧
    (DeleteLogs b).recentCap = b.recentCap ∧
    (DeleteLogs b).recent = [] ∧
    (DeleteLogs b).logFile = [] :=
  ⟨rfl, rfl, rfl, rfl, rfl, rfl, rfl, rfl, rfl, rfl, rfl⟩

/-!
## Shared concrete fixtures for the front-end claims
-/

/-- A freshly initialized manager over an empty directory. -/
def emptyBM : BMState :=
  ⟨[], [], 0, 0, [], [], [], [], 500, []⟩

/-- A manager loaded from a directory holding one list `ads` with the
single rule `x.com`. -/
def xcomBM : BMState :=
  LoadAll emptyBM [⟨"ads.txt".data, false, ["x.com".data]⟩]

/-- A `GetUserBlocklists` oracle for an empty account store. -/
def noUserLists : Str → Option (List Str) := fun _ => none

/-!
## Handler trace lemmas
-/

theorem blockReply_authoritative (cfg : Config) (q : Question) (msg : DnsMsg) :
    (blockReply cfg q msg).authoritative = msg.authoritative := by
  unfold blockReply
  split_ifs <;> rfl

/-- Every reply emitted by the question loop carries the authoritative
flag of the message it was built from. -/
theorem processQuestions_authoritative (env : DnsEnv) (b : BMState) (ca : Str) :
    ∀ (qs : List Question) (msg : DnsMsg) (k : Nat),
      ∀ m ∈ sentReplies (processQuestions env b ca qs msg k),
        m.authoritative = msg.authoritative
  | [], msg, k => by
    simp [processQuestions, sentReplies]
  | q :: rest, msg, k => by
    intro m hm
    simp only [processQuestions] at hm
    by_cases hb : decideBlocked env b ca (trimSuffixDot q.qname) = true
    · simp [hb, sentReplies] at hm
      rw [hm, blockReply_authoritative]
    · simp only [Bool.not_eq_true] at hb
      simp only [hb, Bool.false_eq_true, if_false, sentReplies, List.filterMap_cons] at hm
      have hrec :=
        processQuestions_authoritative env b ca rest
          (match env.upstream.get? k with
           | some (some ans) => { msg with answers := msg.answers ++ ans }
           | _ => msg) (k + 1) m (by simpa [sentReplies] using hm)
      have hfwd : (match env.upstream.get? k with
           | some (some ans) => { msg with answers := msg.answers ++ ans }
           | _ => msg).authoritative = msg.authoritative := by
        cases env.upstream.get? k with
        | none => rfl
        | some o => cases o <;> rfl
      exact hrec.trans hfwd

/-- The question loop always writes exactly one reply. -/
theorem processQuestions_one_send (env : DnsEnv) (b : BMState) (ca : Str) :
    ∀ (qs : List Question) (msg : DnsMsg) (k : Nat),
      (sentReplies (processQuestions env b ca qs msg k)).length = 1
  | [], msg, k => by simp [processQuestions, sentReplies]
  | q :: rest, msg, k => by
    simp only [processQuestions]
    by_cases hb : decideBlocked env b ca (trimSuffixDot q.qname) = true
    · simp [hb, sentReplies]
    · simp only [Bool.not_eq_true] at hb
      simp only [hb, Bool.false_eq_true, if_false, sentReplies, List.filterMap_cons]
      exact processQuestions_one_send env b ca rest _ (k + 1)

/-- An environment with the default config, an empty `ipMACCache`, a
non-nil account manager over an empty store, and no upstream answers. -/
def baseEnv : DnsEnv :=
  ⟨defaultConfig, [], true, noUserLists, []⟩

/-- Like `baseEnv`, but with one successful upstream exchange. -/
def fwdEnv : DnsEnv :=
  ⟨defaultConfig, [], true, noUserLists,
    [some [⟨"ok.com.".data, typeA, 300, "93.184.216.34".data⟩]]⟩

/-- Like `baseEnv`, with `blocking_mode` set to the code's `nx` token. -/
def nxEnv : DnsEnv :=
  ⟨{ defaultConfig with blockingMode := "nx".data }, [], true, noUserLists, []⟩

/-- Like `baseEnv`, with `blocking_mode` set to the spec's literal
`nxdomain` token. -/
def nxdomainEnv : DnsEnv :=
  ⟨{ defaultConfig with blockingMode := "nxdomain".data }, [], true, noUserLists, []⟩

/-!
## Claim C2 — blocking mode and NXDOMAIN
-/

/-- C2 counterexample: with `blocking_mode` set to the literal string
`nxdomain` (the value the claim speaks about), a blocked A query is
answered through the `default` switch branch: a `0.0.0.0` answer record
and RCODE 0, not NXDOMAIN with no answers. -/
theorem blocking_mode_nxdomain_counterexample :
    decideBlocked nxdomainEnv xcomBM "1.2.3.4:55".data "x.com".data = true ∧
    sentReplies (handleMsg nxdomainEnv xcomBM (some "1.2.3.4:55".data)
        ⟨[⟨"x.com.".data, typeA⟩], [], 0, false⟩)
      = [⟨[⟨"x.com.".data, typeA⟩], [⟨"x.com.".data, typeA, 0, "0.0.0.0".data⟩],
          rcodeSuccess, true⟩] ∧
    rcodeSuccess ≠ rcodeNameError :=
  ⟨by decide, by decide, by decide⟩

/-- C2 (amended): the NXDOMAIN mode is selected by the token `nx`, not
`nxdomain`.  For every single-question query whose name is blocked, when
`blocking_mode = "nx"` the reply has RCODE NXDOMAIN (3) and no answer
records, for every question type. -/
theorem nx_mode_blocked_nxdomain (env : DnsEnv) (b : BMState) (remote : Option Str)
    (q : Question) (ans : List ARecord) (rc : Nat) (au : Bool)
    (hmode : env.config.blockingMode = "nx".data)
    (hblocked : decideBlocked env b (clientAddrOf remote) (trimSuffixDot q.qname) = true) :
    handleMsg env b remote ⟨[q], ans, rc, au⟩ =
      [Event.record (trimSuffixDot q.qname) (clientAddrOf remote) true,
       Event.send ⟨[q], [], rcodeNameError, true⟩] := by
  simp only [handleMsg, processQuestions, hblocked, if_true]
  have hbr : blockReply env.config q ⟨[q], [], rcodeSuccess, true⟩
      = ⟨[q], [], rcodeNameError, true⟩ := by
    unfold blockReply
    rw [hmode, if_neg (by decide), if_pos rfl]
  rw [hbr]

/-- C2 witness: the amended theorem at `blocking_mode = "nx"`, the list
`{x.com}` and a TXT query (qtype 16) for `x.com`. -/
theorem nx_mode_blocked_nxdomain_witness :
    handleMsg nxEnv xcomBM (some "1.2.3.4:55".data) ⟨[⟨"x.com.".data, 16⟩], [], 0, false⟩ =
      [Event.record "x.com".data "1.2.3.4:55".data true,
       Event.send ⟨[⟨"x.com.".data, 16⟩], [], rcodeNameError, true⟩] :=
  nx_mode_blocked_nxdomain nxEnv xcomBM (some "1.2.3.4:55".data) ⟨"x.com.".data, 16⟩
    [] 0 false rfl (by decide)

/-!
## Claim C3 — unknown-device policy
-/

/-- C3 counterexample: client IP `1.2.3.4` has no MAC binding, yet the
global rule `x.com` produces a synthesized block reply (redirect mode,
A `127.0.0.1`, TTL 60) for its query. -/
theorem unknown_device_counterexample :
    lookupAssoc baseEnv.ipToMAC (GetClientIP "1.2.3.4:55".data) = none ∧
    handleMsg baseEnv xcomBM (some "1.2.3.4:55".data) ⟨[⟨"x.com.".data, typeA⟩], [], 0, false⟩
      = [Event.record "x.com".data "1.2.3.4:55".data true,
         Event.send ⟨[⟨"x.com.".data, typeA⟩], [⟨"x.com.".data, typeA, 60, "127.0.0.1".data⟩],
           rcodeSuccess, true⟩] :=
  ⟨rfl, by decide⟩

/-- C3 (amended): for a query from a client IP with no device binding the
front-end falls back to the union-of-all-lists global match: the block
decision equals `IsBlocked`, and when the global match fires the query IS
answered with a synthesized block response. -/
theorem unknown_device_global_fallback (env : DnsEnv) (b : BMState) (remote : Option Str)
    (q : Question) (ans : List ARecord) (rc : Nat) (au : Bool)
    (hnomac : lookupAssoc env.ipToMAC (GetClientIP (clientAddrOf remote)) = none) :
    (decideBlocked env b (clientAddrOf remote) (trimSuffixDot q.qname)
      = IsBlocked b.compiled (trimSuffixDot q.qname)) ∧
    (IsBlocked b.compiled (trimSuffixDot q.qname) = true →
      handleMsg env b remote ⟨[q], ans, rc, au⟩ =
        [Event.record (trimSuffixDot q.qname) (clientAddrOf remote) true,
         Event.send (blockReply env.config q ⟨[q], [], rcodeSuccess, true⟩)]) := by
  have hdec : decideBlocked env b (clientAddrOf remote) (trimSuffixDot q.qname)
      = IsBlocked b.compiled (trimSuffixDot q.qname) := by
    simp [decideBlocked, hnomac]
  refine ⟨hdec, fun hglob => ?_⟩
  simp only [handleMsg, processQuestions, hdec, hglob, if_true]

/-- C3 witness: the amended theorem at the unbound client `1.2.3.4:55`
and the globally listed domain `x.com`. -/
theorem unknown_device_global_fallback_witness :
    handleMsg baseEnv xcomBM (some "1.2.3.4:55".data) ⟨[⟨"x.com.".data, typeA⟩], [], 7, true⟩
      = [Event.record "x.com".data "1.2.3.4:55".data true,
         Event.send (blockReply defaultConfig ⟨"x.com.".data, typeA⟩
           ⟨[⟨"x.com.".data, typeA⟩], [], rcodeSuccess, true⟩)] := by
  have h := unknown_device_global_fallback baseEnv xcomBM (some "1.2.3.4:55".data)
    ⟨"x.com.".data, typeA⟩ [] 7 true (by decide)
  exact h.2 (by decide)

/-!
## Claim C4 — the authoritative bit
-/

/-- C4 counterexample: a non-blocked query forwarded upstream (record
event `blocked = false`, answers copied from the upstream response) is
sent with the authoritative bit set, contradicting the claim that AA is
not set on forwarded replies. -/
theorem aa_on_forwarded_counterexample :
    handleMsg fwdEnv emptyBM (some "9.9.9.9:1000".data) ⟨[⟨"ok.com.".data, typeA⟩], [], 0, false⟩
      = [Event.record "ok.com".data "9.9.9.9:1000".data false,
         Event.send ⟨[⟨"ok.com.".data, typeA⟩],
           [⟨"ok.com.".data, typeA, 300, "93.184.216.34".data⟩], rcodeSuccess, true⟩] ∧
    ¬ ∀ m ∈ sentReplies (handleMsg fwdEnv emptyBM (some "9.9.9.9:1000".data)
        ⟨[⟨"ok.com.".data, typeA⟩], [], 0, false⟩), m.authoritative = false :=
  ⟨by decide, by decide⟩

/-- C4 (amended): the handler sets `msg.Authoritative = true` right after
`SetReply` and never clears it, so EVERY reply — synthesized block or
forwarded — carries the authoritative bit. -/
theorem handler_sets_aa_on_every_reply (env : DnsEnv) (b : BMState)
    (remote : Option Str) (r : DnsMsg) :
    ∀ m ∈ sentReplies (handleMsg env b remote r), m.authoritative = true := by
  intro m hm
  simp only [handleMsg] at hm
  exact processQuestions_authoritative env b (clientAddrOf remote) r.questions _ 0 m hm

/-- C4 witness: the amended theorem at the concrete forwarded reply for
`ok.com`. -/
theorem handler_sets_aa_on_every_reply_witness :
    (⟨[⟨"ok.com.".data, typeA⟩], [⟨"ok.com.".data, typeA, 300, "93.184.216.34".data⟩],
      rcodeSuccess, true⟩ : DnsMsg).authoritative = true :=
  handler_sets_aa_on_every_reply fwdEnv emptyBM (some "9.9.9.9:1000".data)
    ⟨[⟨"ok.com.".data, typeA⟩], [], 0, false⟩ _ (by decide)

/-!
## Claim C8 — upstream failure still yields an empty-answer reply
-/

/-- C8: when a single non-blocked question's upstream exchange fails or
times out, the client still receives a reply with an empty answer section
and RCODE 0 (in particular not SERVFAIL); moreover every handled message
results in exactly one reply being written. -/
theorem upstream_failure_empty_reply (env : DnsEnv) (b : BMState) (remote : Option Str)
    (q : Question) (ans : List ARecord) (rc : Nat) (au : Bool)
    (hnb : decideBlocked env b (clientAddrOf remote) (trimSuffixDot q.qname) = false)
    (hup : env.upstream[0]? = none ∨ env.upstream[0]? = some none) :
    handleMsg env b remote ⟨[q], ans, rc, au⟩ =
      [Event.record (trimSuffixDot q.qname) (clientAddrOf remote) false,
       Event.send ⟨[q], [], rcodeSuccess, true⟩] ∧
    rcodeSuccess ≠ rcodeServerFailure ∧
    ∀ r : DnsMsg, (sentReplies (handleMsg env b remote r)).length = 1 := by
  refine ⟨?_, by decide, fun r => ?_⟩
  · simp only [handleMsg, processQuestions, hnb, Bool.false_eq_true, if_false]
    rcases hup with h | h <;> simp [h, processQuestions]
  · simp only [handleMsg]
    exact processQuestions_one_send env b (clientAddrOf remote) r.questions _ 0

/-- C8 witness: the theorem at an unlisted domain with the upstream
exchange failing. -/
theorem upstream_failure_empty_reply_witness :
    handleMsg baseEnv xcomBM (some "9.9.9.9:1000".data) ⟨[⟨"ok.com.".data, typeA⟩], [], 0, false⟩
      = [Event.record "ok.com".data "9.9.9.9:1000".data false,
         Event.send ⟨[⟨"ok.com.".data, typeA⟩], [], rcodeSuccess, true⟩] :=
  (upstream_failure_empty_reply baseEnv xcomBM (some "9.9.9.9:1000".data)
    ⟨"ok.com.".data, typeA⟩ [] 0 false (by decide) (Or.inl rfl)).1

/-!
## Claim C9 — telemetry ordering
-/

/-- The claim's property as a predicate on a handler trace: the record
operation happens exactly once and only after a reply has been sent. -/
def recordOnceAfterSend (evs : List Event) : Bool :=
  ((evs.filter isRecordEvent).length == 1) &&
    (match evs.findIdx? isSendEvent, evs.findIdx? isRecordEvent with
     | some i, some j => decide (i < j)
     | _, _ => false)

/-- C9 counterexample: for a single non-blocked query the trace is
`[record, send]`: telemetry is recorded exactly once but BEFORE the reply
is written, so the claimed ordering fails. -/
theorem record_after_send_counterexample :
    handleMsg baseEnv xcomBM (some "9.9.9.9:1000".data) ⟨[⟨"ok.com.".data, typeA⟩], [], 0, false⟩
      = [Event.record "ok.com".data "9.9.9.9:1000".data false,
         Event.send ⟨[⟨"ok.com.".data, typeA⟩], [], rcodeSuccess, true⟩] ∧
    recordOnceAfterSend (handleMsg baseEnv xcomBM (some "9.9.9.9:1000".data)
      ⟨[⟨"ok.com.".data, typeA⟩], [], 0, false⟩) = false :=
  ⟨by decide, by decide⟩

/-- C9 (amended): the handler records telemetry once per processed
question — hence exactly once for a single-question message — and the
record is issued BEFORE the reply is written: the trace of a
single-question message is `[record name client blocked, send m]`. -/
theorem record_once_before_send (env : DnsEnv) (b : BMState) (remote : Option Str)
    (q : Question) (ans : List ARecord) (rc : Nat) (au : Bool) :
    ∃ m : DnsMsg,
      handleMsg env b remote ⟨[q], ans, rc, au⟩ =
        [Event.record (trimSuffixDot q.qname) (clientAddrOf remote)
          (decideBlocked env b (clientAddrOf remote) (trimSuffixDot q.qname)),
         Event.send m] := by
  by_cases hb : decideBlocked env b (clientAddrOf remote) (trimSuffixDot q.qname) = true
  · exact ⟨blockReply env.config q ⟨[q], [], rcodeSuccess, true⟩,
      by simp [handleMsg, processQuestions, hb]⟩
  · simp only [Bool.not_eq_true] at hb
    cases hu : env.upstream[0]? with
    | none =>
      exact ⟨⟨[q], [], rcodeSuccess, true⟩,
        by simp [handleMsg, processQuestions, hb, hu]⟩
    | some o =>
      cases o with
      | none =>
        exact ⟨⟨[q], [], rcodeSuccess, true⟩,
          by simp [handleMsg, processQuestions, hb, hu]⟩
      | some a =>
        exact ⟨⟨[q], a, rcodeSuccess, true⟩,
          by simp [handleMsg, processQuestions, hb, hu]⟩

/-!
## Claim C7 — `AddFileToList` failure semantics
-/

/-- C7: with `createIfMissing = false` and a 2xx fetch, a missing list
file fails with `NotFound`; a failed fetch or a non-2xx status fails with
the corresponding error.  In every failure case the manager state and the
directory are returned unchanged: no file is written and the in-memory
snapshot is not advanced. -/
theorem addFileToList_failure_semantics
    (b : BMState) (dir : List DirEntry) (listName url : Str)
    (status : Nat) (body : List Str) (createIfMissing : Bool)
    (hname : listName ≠ []) (hurl : url ≠ []) :
    ((200 ≤ status ∧ status < 300) →
      findFile dir (listName ++ ".txt".data) = none →
      AddFileToList b dir listName url (.response status body) false
        = (.error .notFound, b, dir)) ∧
    (AddFileToList b dir listName url .failed createIfMissing
        = (.error .fetchFailed, b, dir)) ∧
    (¬(200 ≤ status ∧ status < 300) →
      AddFileToList b dir listName url (.response status body) createIfMissing
        = (.error .badStatus, b, dir)) := by
  have hn : listName.isEmpty = false := by simp [List.isEmpty_iff, hname]
  have hu : url.isEmpty = false := by simp [List.isEmpty_iff, hurl]
  refine ⟨fun h2xx hmiss => ?_, ?_, fun hbad => ?_⟩
  · have hst : (status < 200 || 300 ≤ status) = false := by
      simp only [Bool.or_eq_false_iff, decide_eq_false_iff_not]
      omega
    simp [AddFileToList, hn, hu, hst, hmiss]
  · simp [AddFileToList, hn, hu]
  · have hst : (status < 200 || 300 ≤ status) = true := by
      simp only [Bool.or_eq_true, decide_eq_true_eq]
      omega
    simp [AddFileToList, hn, hu, hst]

/-- C7 witness: a 2xx fetch into a missing list with
`createIfMissing = false` over an empty directory. -/
theorem addFileToList_failure_semantics_witness :
    AddFileToList emptyBM [] "ads".data "http://u".data
        (.response 200 ["x.com".data]) false
      = (.error .notFound, emptyBM, []) :=
  (addFileToList_failure_semantics emptyBM [] "ads".data "http://u".data 200
    ["x.com".data] false (by decide) (by decide)).1 (by omega) rfl

/-!
## Claim C5 — `append_items` / `load_all` round trip

`normalizedItems` renders the claim's phrase "the normalized non-empty
elements obtained by splitting the items on commas, whitespace, and
newlines" (the splitting is the one `AddItemsToList` itself performs); it
is the spec-side description against which the code's round trip is
compared.
-/

def normalizedItems (items : List Str) : List Str :=
  items.flatMap (fun it =>
    (splitItem it).filterMap (fun p =>
      let s := normalizePattern p
      if s.isEmpty then none else some s))

theorem insertNorm_mem (acc : List Str) (t x : Str) :
    x ∈ insertNorm acc t ↔ x ∈ acc ∨ (normalizePattern t = x ∧ x ≠ []) := by
  unfold insertNorm
  by_cases h1 : (normalizePattern t).isEmpty = true
  · have ht : normalizePattern t = [] := by simpa using h1
    simp only [h1, if_true]
    constructor
    · exact Or.inl
    · rintro (h | ⟨he, hne⟩)
      · exact h
      · rw [ht] at he
        exact absurd he.symm hne
  · have hne' : normalizePattern t ≠ [] := by simpa using h1
    simp only [h1, Bool.false_eq_true, if_false]
    by_cases h2 : normalizePattern t ∈ acc
    · simp only [h2, if_true]
      constructor
      · exact Or.inl
      · rintro (h | ⟨he, hne⟩)
        · exact h
        · rw [← he]
          exact h2
    · simp only [h2, if_false, List.mem_append, List.mem_singleton]
      constructor
      · rintro (h | h)
        · exact Or.inl h
        · exact Or.inr ⟨h.symm, by rw [h]; exact hne'⟩
      · rintro (h | ⟨he, hne⟩)
        · exact Or.inl h
        · exact Or.inr he.symm

theorem mem_foldl_insertNorm : ∀ (toks acc : List Str) (x : Str),
    x ∈ toks.foldl insertNorm acc ↔
      x ∈ acc ∨ ∃ t ∈ toks, normalizePattern t = x ∧ x ≠ []
  | [], acc, x => by simp
  | t :: ts, acc, x => by
    simp only [List.foldl_cons]
    rw [mem_foldl_insertNorm ts (insertNorm acc t) x, insertNorm_mem]
    constructor
    · rintro ((h | h) | ⟨u, hu, hx⟩)
      · exact Or.inl h
      · exact Or.inr ⟨t, List.mem_cons_self t ts, h⟩
      · exact Or.inr ⟨u, List.mem_cons_of_mem _ hu, hx⟩
    · rintro (h | ⟨u, hu, hx⟩)
      · exact Or.inl (Or.inl h)
      · rcases List.mem_cons.mp hu with rfl | hu2
        · exact Or.inl (Or.inr hx)
        · exact Or.inr ⟨u, hu2, hx⟩

theorem insertNormCount_fst (acc : List Str × Nat) (t : Str) :
    (insertNormCount acc t).1 = insertNorm acc.1 t := by
  unfold insertNormCount insertNorm
  by_cases h1 : (normalizePattern t).isEmpty = true <;>
    by_cases h2 : normalizePattern t ∈ acc.1 <;>
      simp [h1, h2]

theorem foldl_insertNormCount_fst : ∀ (toks : List Str) (acc : List Str × Nat),
    (toks.foldl insertNormCount acc).1 = toks.foldl insertNorm acc.1
  | [], _ => rfl
  | t :: ts, acc => by
    simp only [List.foldl_cons]
    rw [foldl_insertNormCount_fst ts (insertNormCount acc t), insertNormCount_fst]

theorem itemsFold_fst : ∀ (items : List Str) (acc : List Str × Nat),
    (items.foldl (fun a it => (splitItem it).foldl insertNormCount a) acc).1
      = items.foldl (fun a it => (splitItem it).foldl insertNorm a) acc.1
  | [], _ => rfl
  | it :: its, acc => by
    simp only [List.foldl_cons]
    rw [itemsFold_fst its _, foldl_insertNormCount_fst]

theorem mem_itemsFold : ∀ (items : List Str) (acc : List Str) (x : Str),
    x ∈ items.foldl (fun a it => (splitItem it).foldl insertNorm a) acc ↔
      x ∈ acc ∨ ∃ it ∈ items, ∃ p ∈ splitItem it, normalizePattern p = x ∧ x ≠ []
  | [], acc, x => by simp
  | it :: its, acc, x => by
    simp only [List.foldl_cons]
    rw [mem_itemsFold its _ x, mem_foldl_insertNorm]
    constructor
    · rintro ((h | ⟨p, hp, hx⟩) | ⟨u, hu, hrest⟩)
      · exact Or.inl h
      · exact Or.inr ⟨it, List.mem_cons_self it its, p, hp, hx⟩
      · exact Or.inr ⟨u, List.mem_cons_of_mem _ hu, hrest⟩
    · rintro (h | ⟨u, hu, hrest⟩)
      · exact Or.inl (Or.inl h)
      · rcases List.mem_cons.mp hu with rfl | hu2
        · exact Or.inl (Or.inr hrest)
        · exact Or.inr ⟨u, hu2, hrest⟩

theorem mem_normalizedItems (items : List Str) (x : Str) :
    x ∈ normalizedItems items ↔
      ∃ it ∈ items, ∃ p ∈ splitItem it, normalizePattern p = x ∧ x ≠ [] := by
  unfold normalizedItems
  simp only [List.mem_flatMap, List.mem_filterMap]
  constructor
  · rintro ⟨it, hit, p, hp, hsome⟩
    by_cases h1 : (normalizePattern p).isEmpty = true
    · simp [h1] at hsome
    · simp only [h1, Bool.false_eq_true, if_false, Option.some_inj] at hsome
      exact ⟨it, hit, p, hp, hsome, by rw [← hsome]; simpa using h1⟩
  · rintro ⟨it, hit, p, hp, he, hne⟩
    refine ⟨it, hit, p, hp, ?_⟩
    have h1 : (normalizePattern p).isEmpty = false := by
      rw [he]
      simpa using hne
    simp [h1, he, hne]

theorem parseLine_nil : parseLine [] = [] := rfl

theorem readLines_id : ∀ {u : List Str}, (∀ x ∈ u, parseLine x = [x]) → readLines u = u
  | [], _ => rfl
  | x :: xs, h => by
    have hx : parseLine x = [x] := h x (List.mem_cons_self x xs)
    have hxs : readLines xs = xs :=
      readLines_id (fun y hy => h y (List.mem_cons_of_mem _ hy))
    unfold readLines at hxs ⊢
    rw [List.flatMap_cons, hx, hxs]
    rfl

theorem trimExt_append_txt (L : Str) : trimExt (L ++ ".txt".data) = L := by
  unfold trimExt
  have hc : (L ++ ".txt".data).contains '.' = true := by
    have hm : '.' ∈ L ++ ".txt".data := List.mem_append_right _ (by decide)
    simp [List.contains, hm]
  rw [if_pos hc]
  have hrev : (L ++ ".txt".data).reverse = 't' :: 'x' :: 't' :: '.' :: L.reverse := by
    rw [List.reverse_append]
    rfl
  rw [hrev, List.dropWhile_cons, if_pos (by decide), List.dropWhile_cons,
    if_pos (by decide), List.dropWhile_cons, if_pos (by decide),
    List.dropWhile_cons, if_neg (by decide), List.drop_one, List.tail_cons,
    List.reverse_reverse]

theorem toLower_append_txt_suffix (L : Str) :
    strHasSuffix ".txt".data (toLower (L ++ ".txt".data)) = true := by
  unfold strHasSuffix toLower
  rw [List.map_append]
  have h4 : List.map toLowerChar ".txt".data = ".txt".data := by decide
  rw [h4, List.reverse_append]
  have : (".txt".data).reverse.length = (".txt".data).length := by simp
  simp [List.take_append_of_le_length, this]

theorem findFile_singleton (fname : Str) (content : List Str) :
    findFile [⟨fname, false, content⟩] fname = some content := by
  simp [findFile, List.find?]

theorem setFile_singleton (fname : Str) (old new : List Str) :
    setFile [⟨fname, false, old⟩] fname new = [⟨fname, false, new⟩] := by
  simp [setFile, List.any_cons]

theorem loadAllLists_singleton (fname : Str) (content : List Str)
    (hsuf : strHasSuffix ".txt".data (toLower fname) = true) :
    loadAllLists [⟨fname, false, content⟩] = [(trimExt fname, readLines content)] := by
  simp [loadAllLists, hsuf, setAssoc]

/-- C5 counterexample: appending the single item `127.0.0.1` to a fresh
list and reloading leaves the in-memory list EMPTY — `readLines` filters
bare IP literals on reload — although `127.0.0.1` is a normalized
non-empty element of the split items, so the claimed union equality
fails. -/
theorem appendItems_roundTrip_counterexample :
    lookupAssoc
        (LoadAll (AddItemsToList emptyBM [] "ads".data ["127.0.0.1".data] true).2.1
          (AddItemsToList emptyBM [] "ads".data ["127.0.0.1".data] true).2.2).lists
        "ads".data
      = some [] ∧
    "127.0.0.1".data ∈ normalizedItems ["127.0.0.1".data] ∧
    ("127.0.0.1".data : Str) ∉ ([] : List Str) ∧
    readLines ([] : List Str) = [] :=
  ⟨by decide, by decide, by decide, rfl⟩

/-- C5 (amended): after `append_items(L, items, true)` followed by
`load_all()`, the in-memory rule set of `L` equals the union of the prior
rule set and the normalized non-empty split elements of `items`, PROVIDED
every prior rule and every normalized element round-trips through the
hosts-file parser (`parseLine r = [r]`: no inline `#`, no embedded
whitespace, not a bare IP literal, not a reserved local hostname, fully
normalized); elements that fail this are written to the file but dropped
again on reload. -/
theorem appendItems_loadAll_roundTrip
    (b : BMState) (L : Str) (oldLines items : List Str)
    (hL : L ≠ [])
    (hold : ∀ r ∈ readLines oldLines, normalizePattern r = r ∧ parseLine r = [r])
    (hitems : ∀ s ∈ normalizedItems items, parseLine s = [s]) :
    ∃ n b1 dir1,
      AddItemsToList b [⟨L ++ ".txt".data, false, oldLines⟩] L items true
        = (.ok n, b1, dir1) ∧
      ∃ after, lookupAssoc (LoadAll b1 dir1).lists L = some after ∧
        ∀ d : Str, d ∈ after ↔ d ∈ readLines oldLines ∨ d ∈ normalizedItems items := by
  have hLne : L.isEmpty = false := by simpa [List.isEmpty_iff] using hL
  set fname := L ++ ".txt".data with hfname
  set base := (readLines oldLines).foldl insertNorm [] with hbase
  set res := items.foldl (fun acc it => (splitItem it).foldl insertNormCount acc)
    (base, 0) with hres
  set U := items.foldl (fun a it => (splitItem it).foldl insertNorm a) base with hU
  have hresU : res.1 = U := by
    rw [hres, itemsFold_fst]
  have hmemU : ∀ x : Str, x ∈ U ↔ x ∈ readLines oldLines ∨ x ∈ normalizedItems items := by
    intro x
    rw [hU, mem_itemsFold, mem_foldl_insertNorm, mem_normalizedItems]
    simp only [List.not_mem_nil, false_or]
    constructor
    · rintro (⟨t, ht, hnorm, hne⟩ | h)
      · obtain ⟨hfix, _⟩ := hold t ht
        rw [hfix] at hnorm
        exact Or.inl (hnorm ▸ ht)
      · exact Or.inr h
    · rintro (h | h)
      · refine Or.inl ⟨x, h, (hold x h).1, ?_⟩
        intro hxe
        have hpl := (hold x h).2
        rw [hxe] at hpl
        rw [parseLine_nil] at hpl
        exact absurd hpl (by simp)
      · exact Or.inr h
  have hwfU : ∀ x ∈ U, parseLine x = [x] := by
    intro x hx
    rcases (hmemU x).mp hx with h | h
    · exact (hold x h).2
    · exact hitems x h
  have hreadU : readLines U = U := readLines_id hwfU
  have heval : AddItemsToList b [⟨fname, false, oldLines⟩] L items true
      = (.ok res.2, LoadAll b [⟨fname, false, U⟩], [⟨fname, false, U⟩]) := by
    unfold AddItemsToList
    rw [if_neg (by simp [hLne])]
    simp only [findFile_singleton, Option.isNone_some, Bool.false_and,
      Bool.false_eq_true, if_false, Option.getD_some]
    rw [← hbase, ← hres, setFile_singleton, hresU]
  refine ⟨res.2, LoadAll b [⟨fname, false, U⟩], [⟨fname, false, U⟩], heval, U, ?_, hmemU⟩
  have hlists : (LoadAll (LoadAll b [⟨fname, false, U⟩]) [⟨fname, false, U⟩]).lists
      = [(L, U)] := by
    simp only [LoadAll]
    rw [loadAllLists_singleton fname U (by rw [hfname]; exact toLower_append_txt_suffix L)]
    rw [hfname, trimExt_append_txt, hreadU]
  rw [hlists]
  simp [lookupAssoc]

/-- C5 witness: the amended theorem at the prior list `{x.com}` and the
free-form item string `a.com, b.com`. -/
theorem appendItems_loadAll_roundTrip_witness :
    ("ads".data : Str) ≠ [] ∧
    (∀ r ∈ readLines ["x.com".data], normalizePattern r = r ∧ parseLine r = [r]) ∧
    (∀ s ∈ normalizedItems ["a.com, b.com".data], parseLine s = [s]) ∧
    (∃ n b1 dir1,
      AddItemsToList emptyBM [⟨"ads.txt".data, false, ["x.com".data]⟩] "ads".data
          ["a.com, b.com".data] true
        = (.ok n, b1, dir1) ∧
      ∃ after, lookupAssoc (LoadAll b1 dir1).lists "ads".data = some after ∧
        ∀ d : Str, d ∈ after ↔
          d ∈ readLines ["x.com".data] ∨ d ∈ normalizedItems ["a.com, b.com".data]) :=
  ⟨by decide, by decide, by decide,
    appendItems_loadAll_roundTrip emptyBM "ads".data ["x.com".data]
      ["a.com, b.com".data] (by decide) (by decide) (by decide)⟩

end PiBlock
